import Mathlib

set_option maxRecDepth 8000

/-!
Shallow embedding of the QuantumSlot backend (src/backend/main.py).

The randomness pipeline of the repository is modelled faithfully:
circuit construction (`create_quantum_circuit`), the per-request
hardware/simulator selection and fallback logic of the `/spin` handler
(`spin`), conversion of a hardware quasi-distribution to integer counts
(`quasiToCounts`), simulator tallying of 100 shots (`tallyShots`),
weighted single-outcome sampling as performed by `random.choices`
(`selectOutcome`), and bit-to-symbol mapping (`mapBit`).

External effects (IBM runtime calls, the Aer simulator, `random()`) are
modelled as oracle parameters: a per-request `HwRequestBehavior` giving
the observed outcome of the status query and of the
transpile/submit/result sequence, a function `Fin SHOTS → Fin 8` giving
the 100 simulator shot outcomes, and a rational `u ∈ [0,1)` standing for
the value returned by `random()`.
-/

namespace QuantumSlot

/-- A gate appended to the 3-qubit circuit (`qc.ry`, `qc.cx`, `qc.measure`). -/
inductive Gate : Type
  | ry (theta : ℝ) (qubit : ℕ)
  | cx (control target : ℕ)
  | measure (qubit clbit : ℕ)

/-- Mirror of qiskit's `QuantumCircuit(3, 3)`: qubit count, clbit count and
the ordered list of appended gates. -/
structure QuantumCircuit where
  num_qubits : ℕ
  num_clbits : ℕ
  gates : List Gate

/-- `qc.ry(theta, i)` appends an RY rotation gate. -/
def QuantumCircuit.ry (qc : QuantumCircuit) (theta : ℝ) (q : ℕ) : QuantumCircuit :=
  { qc with gates := qc.gates ++ [Gate.ry theta q] }

/-- `qc.cx(c, t)` appends a CNOT gate. -/
def QuantumCircuit.cx (qc : QuantumCircuit) (c t : ℕ) : QuantumCircuit :=
  { qc with gates := qc.gates ++ [Gate.cx c t] }

/-- `qc.measure(qs, cs)` appends one measurement per qubit/clbit pair. -/
def QuantumCircuit.measure (qc : QuantumCircuit) (qs cs : List ℕ) : QuantumCircuit :=
  { qc with gates := qc.gates ++ (qs.zip cs).map (fun p => Gate.measure p.1 p.2) }

/-- Embedding of `create_quantum_circuit` (main.py lines 91-118): RY(θ) on
each of the 3 qubits, optional CX(0,1) and CX(1,2) when `entanglement`,
then measurement of all three qubits. -/
def create_quantum_circuit (theta : ℝ) (entanglement : Bool) : QuantumCircuit :=
  let qc : QuantumCircuit := ⟨3, 3, []⟩
  let qc := (List.range 3).foldl (fun acc i => acc.ry theta i) qc
  let qc := if entanglement then (qc.cx 0 1).cx 1 2 else qc
  qc.measure [0, 1, 2] [0, 1, 2]

/-- The module-level constant `SYMBOLS` (main.py line 73). -/
def SYMBOLS : List String := ["🍒", "🍋", "🍊", "🍇", "⭐", "💎", "7️⃣", "🔔"]

/-- The empty string (used as the out-of-range default of list indexing;
Python indexing in the source is always in range). -/
def emptyStr : String := ""

/-- The literal `"simulator"` compared against `backend_name` (line 219). -/
def simulatorName : String := "simulator"

/-- The literal `"qiskit_aer_simulator"` assigned on the simulator path
(line 226). -/
def aerName : String := "qiskit_aer_simulator"

/-- Key of the `MAX_QUEUE_WAIT` environment variable. -/
def maxQueueWaitKey : String := "MAX_QUEUE_WAIT"

/-- Default string `"300"` of `MAX_QUEUE_WAIT` (line 28). -/
def defaultMaxQueueWait : String := "300"

/-- A decimal digit character, `'0'` through `'9'`. -/
def isDigitChar (c : Char) : Bool := 48 ≤ c.toNat && c.toNat ≤ 57

/-- Python `int(str)` on a plain decimal numeral (the only shape the
configuration uses); any other input raises in Python, modelled as `none`. -/
def pyParseNat (s : String) : Option ℕ :=
  if !s.data.isEmpty && s.data.all isDigitChar then
    some (s.data.foldl (fun acc c => acc * 10 + (c.toNat - 48)) 0)
  else none

/-- Embedding of `MAX_QUEUE_WAIT = int(os.getenv("MAX_QUEUE_WAIT", "300"))`
(main.py line 28), over an association-list environment. -/
def MAX_QUEUE_WAIT (env : List (String × String)) : ℕ :=
  (pyParseNat ((env.lookup maxQueueWaitKey).getD defaultMaxQueueWait)).getD 0

/-- A measurement outcome bit-string, one entry per clbit (0 or 1),
most-significant bit first, as in the Python string keys like `"101"`. -/
abbrev Bitstring := List ℕ

/-- A counts dictionary: association list from bit-string to integer count
(`dict[str, int]`), keys distinct. -/
abbrev Counts := List (Bitstring × ℤ)

/-- A quasi-distribution `result.quasi_dists[0]`: association list from the
integer outcome of the 3 measured clbits to its (quasi-)probability. -/
abbrev QuasiDist := List (Fin 8 × ℚ)

/-- Embedding of `format(outcome, '03b')` for a 3-clbit outcome:
the three bits, most significant first. -/
def format03b (n : Fin 8) : Bitstring := [n.val / 4 % 2, n.val / 2 % 2, n.val % 2]

/-- Python `int()` applied to a real value: truncation toward zero. -/
def pyIntTrunc (q : ℚ) : ℤ := if 0 ≤ q then ⌊q⌋ else ⌈q⌉

/-- The fixed shot count (`shots = 100`, lines 185, 199, 222). -/
def SHOTS : ℕ := 100

/-- Embedding of the quasi-distribution-to-counts loop (main.py lines
199-204): `counts[format(outcome, '03b')] = int(probability * shots)`. -/
def quasiToCounts (qd : QuasiDist) : Counts :=
  qd.map (fun op => (format03b op.1, pyIntTrunc (op.2 * (SHOTS : ℚ))))

/-- Embedding of `result.get_counts()` on the simulator path (line 225):
tally of the individual shot outcomes into a counts dictionary, one key
per distinct observed outcome. -/
def tallyShots (l : List (Fin 8)) : Counts :=
  l.dedup.map (fun o => (format03b o, (l.count o : ℤ)))

/-- Sum of the weights passed to `random.choices`
(`[counts[k] for k in measurement_outcomes]`). -/
def totalCount (ws : Counts) : ℤ := (ws.map Prod.snd).sum

/-- First count stored under a key of a counts dictionary (dictionary keys
are distinct, so this is the key's count). -/
def getCount (ws : Counts) (a : Bitstring) : ℤ :=
  match ws with
  | [] => 0
  | (b, w) :: rest => if b = a then w else getCount rest a

/-- Embedding of `random.choices(population, weights, k=1)[0]`: with
`r = random() * total ∈ [0, total)`, return the first key whose cumulative
weight interval contains `r`. -/
def selectOutcome (ws : Counts) (r : ℚ) : Option Bitstring :=
  match ws with
  | [] => none
  | (a, w) :: rest => if r < (w : ℚ) then some a else selectOutcome rest (r - (w : ℚ))

/-- Number of draws `r ∈ {0, 1, ..., total - 1}` on which the sampler
returns key `a`; used to state count-proportional selection. -/
def drawCount (ws : Counts) (a : Bitstring) : ℕ :=
  (List.range (totalCount ws).toNat).countP
    (fun n : ℕ => decide (selectOutcome ws (n : ℚ) = some a))

/-- The inline bit-to-symbol mapping of main.py lines 240-241:
`SYMBOLS[m * SYMBOL_OFFSET % len(SYMBOLS)]` with
`SYMBOL_OFFSET = len(SYMBOLS) // 2`. -/
def mapBit (symbols : List String) (m : ℕ) : String :=
  symbols.getD (m * (symbols.length / 2) % symbols.length) emptyStr

/-- Embedding of the dead helper `measurement_to_symbol` (main.py lines
121-131), kept for completeness; the `/spin` handler does not call it. -/
def measurement_to_symbol (measurement : ℕ) : String :=
  SYMBOLS.getD (measurement % SYMBOLS.length) emptyStr

/-- The module-level mutable/process-wide values read by the `/spin`
handler: configuration constants, the connection handles (`service`,
`quantum_backend`, modelled by presence and by name), the
`using_real_quantum` flag, and the symbol table. -/
structure ProcState where
  ibm_token : Option String
  service : Bool
  quantum_backend : Option String
  using_real_quantum : Bool
  use_simulator_fallback : Bool
  max_queue_wait : ℕ
  symbols : List String
deriving DecidableEq

/-- Request body of `POST /spin`. -/
structure SpinRequest where
  theta : ℝ
  entanglement : Bool

/-- Response body of `POST /spin`. -/
structure SpinResponse where
  symbols : List String
  measurements : List ℕ
  distribution : Counts
  backend_used : String
  queue_position : Option ℕ
deriving DecidableEq

/-- Observed behavior of the external IBM runtime during one request:
the outcome of `quantum_backend.status().pending_jobs` and the outcome of
the transpile / `sampler.run` / `job.result()` sequence (an exception
message, or the quasi-distribution of the result). -/
structure HwRequestBehavior where
  status : Except String ℕ
  runResult : Except String QuasiDist

/-- The guard of main.py line 168:
`if using_real_quantum and service and quantum_backend`. -/
def hwTried (s : ProcState) : Bool :=
  s.using_real_quantum && s.service && s.quantum_backend.isSome

/-- The body of the `try` block (main.py lines 169-210): query the queue,
run on hardware when `pending_jobs < 10 or not USE_SIMULATOR_FALLBACK`,
otherwise raise; any raised exception yields `none` (caught at line 212).
On success, returns the converted counts, `quantum_backend.name`, and the
pending-job count stored into `queue_position`. -/
def hwAttemptResult (s : ProcState) (hw : HwRequestBehavior) :
    Option (Counts × String × ℕ) :=
  match hw.status with
  | .error _ => none
  | .ok pending =>
    if pending < 10 || !s.use_simulator_fallback then
      match hw.runResult with
      | .error _ => none
      | .ok qd => some (quasiToCounts qd, s.quantum_backend.getD emptyStr, pending)
    else none

/-- The tail of the `/spin` handler (main.py lines 228-250): draw one
outcome with `random.choices` (with `r = u * total`), decompose the drawn
bit-string into `measurements`, map each bit to a symbol, and assemble the
response. The state is returned unchanged: this part writes no global. -/
def finishSpin (s : ProcState) (counts : Counts) (name : String)
    (qp : Option ℕ) (u : ℚ) : SpinResponse × ProcState :=
  let drawn := (selectOutcome counts (u * (totalCount counts : ℚ))).getD []
  ({ symbols := drawn.map (mapBit s.symbols),
     measurements := drawn,
     distribution := counts,
     backend_used := name,
     queue_position := qp }, s)

/-- Embedding of the `/spin` handler (main.py lines 144-250).

Control flow of the source: `backend_name` starts as `"simulator"`; when
the hardware guard holds, the `try` block may set counts/name/queue
position (success) or be caught, in which case `using_real_quantum` is
set `False` (line 216) and the simulator block at line 219 runs; the
simulator block also runs when the guard fails, and, per the literal
check `backend_name == "simulator"`, even after a hardware success whose
backend is named `"simulator"` (keeping the already-set queue position). -/
def spin (s : ProcState) (req : SpinRequest) (hw : HwRequestBehavior)
    (sim : Fin SHOTS → Fin 8) (u : ℚ) : SpinResponse × ProcState :=
  let _qc := create_quantum_circuit req.theta req.entanglement
  if hwTried s then
    match hwAttemptResult s hw with
    | some (counts, name, pending) =>
      if name = simulatorName then
        finishSpin s (tallyShots (List.ofFn sim)) aerName (some pending) u
      else
        finishSpin s counts name (some pending) u
    | none =>
      finishSpin { s with using_real_quantum := false }
        (tallyShots (List.ofFn sim)) aerName none u
  else
    finishSpin s (tallyShots (List.ofFn sim)) aerName none u

/-- Oracles consumed by one `/spin` request: request body, hardware
behavior, simulator shots, and the `random()` draw. -/
abbrev SpinInput := SpinRequest × HwRequestBehavior × (Fin SHOTS → Fin 8) × ℚ

/-- Iterate `/spin` requests through the process state, collecting the
responses: models a sequence of requests within one process lifetime. -/
def spinSeq (s : ProcState) : List SpinInput → List SpinResponse × ProcState
  | [] => ([], s)
  | i :: rest =>
    let out := spin s i.1 i.2.1 i.2.2.1 i.2.2.2
    let outs := spinSeq out.2 rest
    (out.1 :: outs.1, outs.2)

/-- The placeholder token value checked at main.py line 35. -/
def tokenPlaceholder : String := "your_token_here"

/-- Truthiness of `IBM_TOKEN and IBM_TOKEN != "your_token_here"`
(main.py line 35): present, non-empty and not the placeholder. -/
def tokenConfigured (token : Option String) : Bool :=
  match token with
  | none => false
  | some t => !(t = "") && !(t = tokenPlaceholder)

/-- Embedding of the module initialization (main.py lines 25-59): when a
token is configured, attempt the connection/backend resolution (outcome
supplied by the `conn` oracle: resolved backend name, or an exception);
on success `using_real_quantum` becomes true, on failure or without a
token it stays false. -/
def initialState (token : Option String) (useSimFallback : Bool) (mqw : ℕ)
    (conn : Except String String) : ProcState :=
  if tokenConfigured token then
    match conn with
    | .ok name =>
      ⟨token, true, some name, true, useSimFallback, mqw, SYMBOLS⟩
    | .error _ =>
      ⟨token, false, none, false, useSimFallback, mqw, SYMBOLS⟩
  else
    ⟨token, false, none, false, useSimFallback, mqw, SYMBOLS⟩

/-! ## Concrete fixtures used as witnesses and counterexamples -/

/-- A sample credential token. -/
def tok0 : String := "token-abc"

/-- A sample resolved hardware backend name. -/
def backendName0 : String := "ibm_fake_device"

/-- A sample error message for a failing hardware execution. -/
def errMsg0 : String := "transpile failed"

/-- A process state as after a successful hardware connection: token set,
service connected, backend resolved, `using_real_quantum` true, fallback
enabled, default timeout value. -/
def sConnected : ProcState :=
  ⟨some tok0, true, some backendName0, true, true, 300, SYMBOLS⟩

/-- A spin request with `theta = 0` and no entanglement. -/
def req0 : SpinRequest := ⟨0, false⟩

/-- Simulator shots that all land on outcome 0. -/
def sim0 : Fin SHOTS → Fin 8 := fun _ => 0

/-- Hardware behavior: 15 pending jobs (busy queue), run would succeed. -/
def hwBusy : HwRequestBehavior := ⟨Except.ok 15, Except.ok [(0, 1)]⟩

/-- A quasi-distribution whose three probabilities are each 1/3: every
truncated count is 33, so the counts sum to 99 < 100. -/
def qd0 : QuasiDist := [(0, 1/3), (1, 1/3), (2, 1/3)]

/-- Hardware behavior: short queue (3 pending), successful run giving `qd0`. -/
def hwOk99 : HwRequestBehavior := ⟨Except.ok 3, Except.ok qd0⟩

/-- Hardware behavior: short queue, but the execution raises. -/
def hwFail0 : HwRequestBehavior := ⟨Except.ok 3, Except.error errMsg0⟩

/-- A small counts dictionary for exercising the sampler. -/
def ws6 : Counts := [([0, 1, 0], 30), ([1, 1, 1], 70)]

/-! ## Sampler lemmas -/

theorem totalCount_nonneg {ws : Counts} (h : ∀ p ∈ ws, 0 ≤ p.2) :
    0 ≤ totalCount ws := by
  refine List.sum_nonneg ?_
  intro x hx
  rcases List.mem_map.1 hx with ⟨p, hp, rfl⟩
  exact h p hp

theorem selectOutcome_mem {ws : Counts} {r : ℚ} {a : Bitstring}
    (h : selectOutcome ws r = some a) : a ∈ ws.map Prod.fst := by
  induction ws generalizing r with
  | nil => simp [selectOutcome] at h
  | cons p rest ih =>
    rcases p with ⟨b, w⟩
    simp only [selectOutcome] at h
    by_cases hr : r < (w : ℚ)
    · rw [if_pos hr] at h
      simp only [Option.some.injEq] at h
      simp [h]
    · rw [if_neg hr] at h
      exact List.mem_cons_of_mem _ (ih h)

theorem selectOutcome_pos {ws : Counts} {r : ℚ}
    (h0 : 0 ≤ r) (hlt : r < (totalCount ws : ℚ)) :
    ∃ a, selectOutcome ws r = some a ∧ ∃ w, (a, w) ∈ ws ∧ 0 < w := by
  induction ws generalizing r with
  | nil =>
    exfalso
    simp [totalCount] at hlt
    exact absurd (lt_of_le_of_lt h0 hlt) (lt_irrefl 0)
  | cons p rest ih =>
    rcases p with ⟨b, w⟩
    by_cases hr : r < (w : ℚ)
    · refine ⟨b, by simp [selectOutcome, hr], w, List.mem_cons_self _ _, ?_⟩
      have hwq : (0 : ℚ) < (w : ℚ) := lt_of_le_of_lt h0 hr
      exact_mod_cast hwq
    · have hw_le : (w : ℚ) ≤ r := le_of_not_lt hr
      have h0' : 0 ≤ r - (w : ℚ) := by linarith
      have hlt' : r - (w : ℚ) < (totalCount rest : ℚ) := by
        have : (totalCount ((b, w) :: rest) : ℚ) = (w : ℚ) + (totalCount rest : ℚ) := by
          simp [totalCount]
        rw [this] at hlt
        linarith
      rcases ih h0' hlt' with ⟨a, hsel, w', hmem, hw'⟩
      exact ⟨a, by simp [selectOutcome, hr, hsel], w', List.mem_cons_of_mem _ hmem, hw'⟩

theorem getCount_eq_zero_of_not_mem {ws : Counts} {a : Bitstring}
    (h : a ∉ ws.map Prod.fst) : getCount ws a = 0 := by
  induction ws with
  | nil => rfl
  | cons p rest ih =>
    rcases p with ⟨b, w⟩
    simp only [List.map_cons, List.mem_cons, not_or] at h
    simp only [getCount]
    rw [if_neg (fun hba => h.1 hba.symm), ih h.2]

theorem drawCount_eq_zero_of_not_mem {ws : Counts} {a : Bitstring}
    (h : a ∉ ws.map Prod.fst) : drawCount ws a = 0 := by
  refine List.countP_eq_zero.mpr ?_
  intro n _
  simp only [decide_eq_true_eq]
  intro hs
  exact h (selectOutcome_mem hs)

theorem selectOutcome_cons_ge {b : Bitstring} {w : ℤ} {rest : Counts} {r : ℚ}
    (hr : (w : ℚ) ≤ r) :
    selectOutcome ((b, w) :: rest) r = selectOutcome rest (r - (w : ℚ)) := by
  simp [selectOutcome, not_lt.2 hr]

/-- Count-proportional selection: over the `totalCount ws` equally likely
integer draws, key `a` is selected exactly `getCount ws a` times. -/
theorem drawCount_eq {ws : Counts} (hnd : (ws.map Prod.fst).Nodup)
    (hnn : ∀ p ∈ ws, 0 ≤ p.2) (a : Bitstring) :
    drawCount ws a = (getCount ws a).toNat := by
  induction ws with
  | nil => simp [drawCount, totalCount, getCount]
  | cons p rest ih =>
    rcases p with ⟨b, w⟩
    have hw : 0 ≤ w := hnn (b, w) (List.mem_cons_self _ _)
    have hrest_nn : ∀ q ∈ rest, 0 ≤ q.2 := fun q hq => hnn q (List.mem_cons_of_mem _ hq)
    have hT : 0 ≤ totalCount rest := totalCount_nonneg hrest_nn
    rw [List.map_cons, List.nodup_cons] at hnd
    have hb_not : b ∉ rest.map Prod.fst := hnd.1
    have hnd' : (rest.map Prod.fst).Nodup := hnd.2
    have htot : totalCount ((b, w) :: rest) = w + totalCount rest := by
      simp [totalCount]
    have hwcast : ((w.toNat : ℚ)) = (w : ℚ) := by
      exact_mod_cast congrArg (fun z : ℤ => (z : ℚ)) (Int.toNat_of_nonneg hw)
    have hrange : List.range (totalCount ((b, w) :: rest)).toNat =
        List.range w.toNat ++ (List.range (totalCount rest).toNat).map (w.toNat + ·) := by
      rw [htot, Int.toNat_add hw hT, List.range_add]
    -- the first block of draws lands on the head key
    have hfirst : ∀ n ∈ List.range w.toNat,
        selectOutcome ((b, w) :: rest) (n : ℚ) = some b := by
      intro n hn
      have hlt : (n : ℚ) < (w : ℚ) := by
        rw [← hwcast]
        exact_mod_cast List.mem_range.1 hn
      simp [selectOutcome, hlt]
    -- the remaining draws behave as draws on the tail
    have hshift : ∀ m : ℕ,
        selectOutcome ((b, w) :: rest) ((w.toNat + m : ℕ) : ℚ) =
          selectOutcome rest (m : ℚ) := by
      intro m
      have hge : (w : ℚ) ≤ ((w.toNat + m : ℕ) : ℚ) := by
        push_cast
        rw [hwcast]
        linarith [Nat.cast_nonneg (α := ℚ) m]
      rw [selectOutcome_cons_ge hge]
      congr 1
      push_cast
      rw [hwcast]
      ring
    unfold drawCount
    rw [hrange, List.countP_append, List.countP_map]
    by_cases hba : b = a
    · subst hba
      have h1 : (List.range w.toNat).countP
          (fun n : ℕ => decide (selectOutcome ((b, w) :: rest) (n : ℚ) = some b)) =
          w.toNat := by
        have hall : (List.range w.toNat).countP
            (fun n : ℕ => decide (selectOutcome ((b, w) :: rest) (n : ℚ) = some b)) =
            (List.range w.toNat).length := by
          refine List.countP_eq_length.mpr ?_
          intro n hn
          simp [hfirst n hn]
        rw [hall, List.length_range]
      have h2 : (List.range (totalCount rest).toNat).countP
          ((fun n : ℕ => decide (selectOutcome ((b, w) :: rest) (n : ℚ) = some b)) ∘
            (w.toNat + ·)) = 0 := by
        refine List.countP_eq_zero.mpr ?_
        intro m _
        simp only [Function.comp_apply, decide_eq_true_eq, hshift m]
        intro hs
        exact hb_not (selectOutcome_mem hs)
      rw [h1, h2]
      simp [getCount]
    · have h1 : (List.range w.toNat).countP
          (fun n : ℕ => decide (selectOutcome ((b, w) :: rest) (n : ℚ) = some a)) = 0 := by
        refine List.countP_eq_zero.mpr ?_
        intro n hn
        simp only [decide_eq_true_eq, hfirst n hn]
        intro hs
        exact hba (by simpa using hs)
      have h2 : (List.range (totalCount rest).toNat).countP
          ((fun n : ℕ => decide (selectOutcome ((b, w) :: rest) (n : ℚ) = some a)) ∘
            (w.toNat + ·)) = drawCount rest a := by
        unfold drawCount
        refine List.countP_congr ?_
        intro m _
        simp only [Function.comp_apply, decide_eq_true_eq]
        rw [hshift m]
      rw [h1, h2, ih hnd' hrest_nn]
      simp [getCount, hba]

/-! ## Distribution lemmas -/

theorem format03b_injective : Function.Injective format03b := by
  intro a b h
  revert h
  revert a b
  decide

theorem format03b_length (o : Fin 8) : (format03b o).length = 3 := by
  simp [format03b]

theorem tallyShots_keys (l : List (Fin 8)) :
    (tallyShots l).map Prod.fst = l.dedup.map format03b := by
  simp [tallyShots, List.map_map]

theorem tallyShots_nodup (l : List (Fin 8)) :
    ((tallyShots l).map Prod.fst).Nodup := by
  rw [tallyShots_keys]
  exact (l.nodup_dedup).map format03b_injective

theorem tallyShots_mem {l : List (Fin 8)} {p : Bitstring × ℤ}
    (hp : p ∈ tallyShots l) :
    ∃ o : Fin 8, p.1 = format03b o ∧ p.2 = (l.count o : ℤ) ∧ o ∈ l := by
  rcases List.mem_map.1 hp with ⟨o, ho, hpo⟩
  exact ⟨o, by simp [← hpo], by simp [← hpo], List.mem_dedup.1 ho⟩

theorem tallyShots_pos {l : List (Fin 8)} {p : Bitstring × ℤ}
    (hp : p ∈ tallyShots l) : 0 < p.2 := by
  rcases tallyShots_mem hp with ⟨o, _, hcount, homem⟩
  rw [hcount]
  exact_mod_cast List.count_pos_iff.mpr homem

theorem totalCount_tallyShots (l : List (Fin 8)) :
    totalCount (tallyShots l) = (l.length : ℤ) := by
  have h1 : totalCount (tallyShots l) =
      ((l.dedup.map fun o => l.count o).map (fun n : ℕ => (n : ℤ))).sum := by
    simp [totalCount, tallyShots, List.map_map]
    rfl
  rw [h1, ← Nat.cast_list_sum, List.sum_map_count_dedup_eq_length]

/-- The counts file of the simulator path always totals the shot count. -/
theorem totalCount_sim (sim : Fin SHOTS → Fin 8) :
    totalCount (tallyShots (List.ofFn sim)) = 100 := by
  rw [totalCount_tallyShots, List.length_ofFn]
  rfl

theorem quasiToCounts_nonneg {qd : QuasiDist} (hnn : ∀ p ∈ qd, 0 ≤ p.2) :
    ∀ p ∈ quasiToCounts qd, 0 ≤ p.2 := by
  intro p hp
  rcases List.mem_map.1 hp with ⟨op, hop, hpo⟩
  have h100 : (0 : ℚ) ≤ op.2 * (SHOTS : ℚ) := by
    have := hnn op hop
    positivity
  have : p.2 = pyIntTrunc (op.2 * (SHOTS : ℚ)) := by simp [← hpo]
  rw [this, pyIntTrunc, if_pos h100]
  exact_mod_cast Int.floor_nonneg.mpr h100

theorem quasiToCounts_keys_nodup {qd : QuasiDist}
    (hnd : (qd.map Prod.fst).Nodup) :
    ((quasiToCounts qd).map Prod.fst).Nodup := by
  have h : (quasiToCounts qd).map Prod.fst = (qd.map Prod.fst).map format03b := by
    simp [quasiToCounts, List.map_map]
  rw [h]
  exact hnd.map format03b_injective

theorem sum_map_mul_shots (qd : QuasiDist) :
    (qd.map fun op => op.2 * (SHOTS : ℚ)).sum = (qd.map Prod.snd).sum * (SHOTS : ℚ) := by
  induction qd with
  | nil => simp
  | cons p rest ih => simp [ih, add_mul]

/-- Hardware-path counts never exceed the shot count: truncation only
loses probability mass. -/
theorem totalCount_quasi_le {qd : QuasiDist} (hnn : ∀ p ∈ qd, 0 ≤ p.2)
    (hsum : (qd.map Prod.snd).sum ≤ 1) :
    totalCount (quasiToCounts qd) ≤ 100 := by
  have hmapped : totalCount (quasiToCounts qd) =
      (qd.map fun op => pyIntTrunc (op.2 * (SHOTS : ℚ))).sum := by
    simp [totalCount, quasiToCounts, List.map_map]
    rfl
  have hcast : ((qd.map fun op => pyIntTrunc (op.2 * (SHOTS : ℚ))).sum : ℚ) =
      ((qd.map fun op => pyIntTrunc (op.2 * (SHOTS : ℚ))).map (fun z : ℤ => (z : ℚ))).sum :=
    Int.cast_list_sum _
  have hle1 : ((qd.map fun op => pyIntTrunc (op.2 * (SHOTS : ℚ))).map
      (fun z : ℤ => (z : ℚ))).sum ≤ (qd.map fun op => op.2 * (SHOTS : ℚ)).sum := by
    rw [List.map_map]
    refine List.sum_le_sum ?_
    intro op hop
    have hq : (0 : ℚ) ≤ op.2 * (SHOTS : ℚ) := by
      have := hnn op hop
      positivity
    simp only [Function.comp_apply, pyIntTrunc, if_pos hq]
    exact Int.floor_le _
  have hsum100 := sum_map_mul_shots qd
  have hfinal : ((qd.map fun op => pyIntTrunc (op.2 * (SHOTS : ℚ))).sum : ℚ) ≤ 100 := by
    rw [hcast]
    refine le_trans hle1 ?_
    rw [hsum100]
    have : (SHOTS : ℚ) = 100 := by norm_num [SHOTS]
    rw [this]
    nlinarith [hsum]
  rw [hmapped]
  exact_mod_cast hfinal

/-! ## Control-flow lemmas for the spin handler -/

theorem finishSpin_fst (s : ProcState) (counts : Counts) (name : String)
    (qp : Option ℕ) (u : ℚ) :
    (finishSpin s counts name qp u).1 =
      { symbols := ((selectOutcome counts (u * (totalCount counts : ℚ))).getD []).map
          (mapBit s.symbols),
        measurements := (selectOutcome counts (u * (totalCount counts : ℚ))).getD [],
        distribution := counts,
        backend_used := name,
        queue_position := qp } := rfl

theorem finishSpin_snd (s : ProcState) (counts : Counts) (name : String)
    (qp : Option ℕ) (u : ℚ) : (finishSpin s counts name qp u).2 = s := rfl

theorem spin_of_not_tried (s : ProcState) (req : SpinRequest) (hw : HwRequestBehavior)
    (sim : Fin SHOTS → Fin 8) (u : ℚ) (htried : hwTried s = false) :
    spin s req hw sim u = finishSpin s (tallyShots (List.ofFn sim)) aerName none u := by
  unfold spin
  rw [htried]
  rfl

theorem spin_of_flag_false (s : ProcState) (req : SpinRequest) (hw : HwRequestBehavior)
    (sim : Fin SHOTS → Fin 8) (u : ℚ) (h : s.using_real_quantum = false) :
    spin s req hw sim u = finishSpin s (tallyShots (List.ofFn sim)) aerName none u :=
  spin_of_not_tried s req hw sim u (by simp [hwTried, h])

theorem spin_of_hw_fail (s : ProcState) (req : SpinRequest) (hw : HwRequestBehavior)
    (sim : Fin SHOTS → Fin 8) (u : ℚ) (htried : hwTried s = true)
    (hfail : hwAttemptResult s hw = none) :
    spin s req hw sim u =
      finishSpin { s with using_real_quantum := false }
        (tallyShots (List.ofFn sim)) aerName none u := by
  unfold spin
  rw [htried, hfail]
  rfl

theorem spin_of_hw_ok (s : ProcState) (req : SpinRequest) (hw : HwRequestBehavior)
    (sim : Fin SHOTS → Fin 8) (u : ℚ) (counts : Counts) (name : String) (pending : ℕ)
    (htried : hwTried s = true)
    (hres : hwAttemptResult s hw = some (counts, name, pending)) :
    spin s req hw sim u =
      if name = simulatorName then
        finishSpin s (tallyShots (List.ofFn sim)) aerName (some pending) u
      else finishSpin s counts name (some pending) u := by
  unfold spin
  rw [htried, hres]
  rfl

theorem spin_of_attempt_none (s : ProcState) (req : SpinRequest) (hw : HwRequestBehavior)
    (sim : Fin SHOTS → Fin 8) (u : ℚ) (hfail : hwAttemptResult s hw = none) :
    (spin s req hw sim u).1.backend_used = aerName ∧
      (spin s req hw sim u).1.distribution = tallyShots (List.ofFn sim) ∧
      (spin s req hw sim u).1.measurements =
        (selectOutcome (tallyShots (List.ofFn sim))
          (u * (totalCount (tallyShots (List.ofFn sim)) : ℚ))).getD [] := by
  cases htried : hwTried s with
  | false =>
    rw [spin_of_not_tried s req hw sim u htried]
    generalize tallyShots (List.ofFn sim) = cts
    exact ⟨rfl, rfl, rfl⟩
  | true =>
    rw [spin_of_hw_fail s req hw sim u htried hfail]
    generalize tallyShots (List.ofFn sim) = cts
    exact ⟨rfl, rfl, rfl⟩

theorem spin_state (s : ProcState) (req : SpinRequest) (hw : HwRequestBehavior)
    (sim : Fin SHOTS → Fin 8) (u : ℚ) :
    (spin s req hw sim u).2 = s ∨
      (spin s req hw sim u).2 = { s with using_real_quantum := false } := by
  cases htried : hwTried s with
  | false =>
    left
    rw [spin_of_not_tried s req hw sim u htried]
    rfl
  | true =>
    cases hres : hwAttemptResult s hw with
    | none =>
      right
      rw [spin_of_hw_fail s req hw sim u htried hres]
      rfl
    | some t =>
      rcases t with ⟨counts, name, pending⟩
      left
      rw [spin_of_hw_ok s req hw sim u counts name pending htried hres]
      by_cases hname : name = simulatorName
      · rw [if_pos hname]
        rfl
      · rw [if_neg hname]
        rfl

theorem spin_flag_monotone (s : ProcState) (req : SpinRequest) (hw : HwRequestBehavior)
    (sim : Fin SHOTS → Fin 8) (u : ℚ)
    (h : (spin s req hw sim u).2.using_real_quantum = true) :
    s.using_real_quantum = true := by
  rcases spin_state s req hw sim u with heq | hadj
  · rw [heq] at h
    exact h
  · rw [hadj] at h
    simp at h

theorem spinSeq_flag_false (inputs : List SpinInput) (s : ProcState)
    (h : s.using_real_quantum = false) :
    (∀ resp ∈ (spinSeq s inputs).1, resp.backend_used = aerName) ∧
      (spinSeq s inputs).2 = s := by
  induction inputs generalizing s with
  | nil => simp [spinSeq]
  | cons i rest ih =>
    have hsp := spin_of_flag_false s i.1 i.2.1 i.2.2.1 i.2.2.2 h
    have hstate : (spin s i.1 i.2.1 i.2.2.1 i.2.2.2).2 = s := by
      rw [hsp, finishSpin_snd]
    have hback : (spin s i.1 i.2.1 i.2.2.1 i.2.2.2).1.backend_used = aerName := by
      rw [hsp, finishSpin_fst]
    rcases ih s h with ⟨ihall, ihstate⟩
    constructor
    · intro resp hresp
      simp only [spinSeq, hstate, List.mem_cons] at hresp
      rcases hresp with hresp | hresp
      · rw [hresp, hback]
      · exact ihall resp hresp
    · simp only [spinSeq, hstate]
      exact ihstate

/-! ## Claim theorems -/

/-- Claim C8: for every real bias angle and both entanglement flags, the
Circuit Builder succeeds (it is a total function of an unrestricted real
angle) and produces a 3-qubit, 3-clbit circuit whose gate list is: the
same RY(θ) rotation on each of the 3 qubits, then CX(0,1) and CX(1,2)
exactly when `entanglement` is true, then a measurement of all 3 qubits. -/
theorem C8_circuit_builder (theta : ℝ) (e : Bool) :
    (create_quantum_circuit theta e).num_qubits = 3 ∧
    (create_quantum_circuit theta e).num_clbits = 3 ∧
    (create_quantum_circuit theta e).gates =
      [Gate.ry theta 0, Gate.ry theta 1, Gate.ry theta 2] ++
        (if e then [Gate.cx 0 1, Gate.cx 1 2] else []) ++
        [Gate.measure 0 0, Gate.measure 1 1, Gate.measure 2 2] := by
  cases e <;> exact ⟨rfl, rfl, rfl⟩

/-- Claim C7: the Symbol Mapper is a deterministic function of each bit:
over the 8-symbol set, bit 0 maps to `SYMBOLS[0]` and bit 1 maps to
`SYMBOLS[len(SYMBOLS) // 2]` (index 4), computed by integer index
arithmetic modulo the symbol-set length, and every spin response maps its
measurement bits one-for-one through this function. -/
theorem C7_symbol_mapper :
    SYMBOLS.length = 8 ∧
    SYMBOLS.length / 2 = 4 ∧
    mapBit SYMBOLS 0 = SYMBOLS.getD (0 * (SYMBOLS.length / 2) % SYMBOLS.length) emptyStr ∧
    mapBit SYMBOLS 1 = SYMBOLS.getD (1 * (SYMBOLS.length / 2) % SYMBOLS.length) emptyStr ∧
    mapBit SYMBOLS 0 = "🍒" ∧
    mapBit SYMBOLS 1 = "⭐" ∧
    ¬ mapBit SYMBOLS 0 = mapBit SYMBOLS 1 ∧
    (∀ (s : ProcState) (req : SpinRequest) (hw : HwRequestBehavior)
        (sim : Fin SHOTS → Fin 8) (u : ℚ),
      (spin s req hw sim u).1.symbols =
        (spin s req hw sim u).1.measurements.map (mapBit s.symbols)) := by
  refine ⟨rfl, rfl, rfl, rfl, by decide, by decide, by decide, ?_⟩
  intro s req hw sim u
  cases htried : hwTried s with
  | false =>
    rw [spin_of_not_tried s req hw sim u htried]
    generalize tallyShots (List.ofFn sim) = cts
    rfl
  | true =>
    cases hres : hwAttemptResult s hw with
    | none =>
      rw [spin_of_hw_fail s req hw sim u htried hres]
      generalize tallyShots (List.ofFn sim) = cts
      rfl
    | some t =>
      rcases t with ⟨counts, name, pending⟩
      rw [spin_of_hw_ok s req hw sim u counts name pending htried hres]
      by_cases hname : name = simulatorName
      · rw [if_pos hname]
        generalize tallyShots (List.ofFn sim) = cts
        rfl
      · rw [if_neg hname]
        rfl

/-- Claim C10: a spin request's only effect on the process-wide state is,
possibly, setting the `using_real_quantum` flag to false; the token, the
service and backend handles, the configuration values and the symbol set
are unchanged by every request. -/
theorem C10_frame (s : ProcState) (req : SpinRequest) (hw : HwRequestBehavior)
    (sim : Fin SHOTS → Fin 8) (u : ℚ) :
    ((spin s req hw sim u).2 = s ∨
      (spin s req hw sim u).2 = { s with using_real_quantum := false }) ∧
    (spin s req hw sim u).2.ibm_token = s.ibm_token ∧
    (spin s req hw sim u).2.service = s.service ∧
    (spin s req hw sim u).2.quantum_backend = s.quantum_backend ∧
    (spin s req hw sim u).2.use_simulator_fallback = s.use_simulator_fallback ∧
    (spin s req hw sim u).2.max_queue_wait = s.max_queue_wait ∧
    (spin s req hw sim u).2.symbols = s.symbols ∧
    ((spin s req hw sim u).2.using_real_quantum = s.using_real_quantum ∨
      (spin s req hw sim u).2.using_real_quantum = false) := by
  rcases spin_state s req hw sim u with h | h <;> rw [h] <;> simp

/-- Claim C3: the configured hardware timeout defaults to 300 seconds
(`MAX_QUEUE_WAIT`), but the spin pipeline's behavior is entirely
independent of its value: the configuration is read and displayed but
never applied, so no timeout bounds hardware execution and no
timeout-triggered degradation exists. This refutes the claim that
hardware execution is bounded by the configured timeout. -/
theorem C3_timeout_unused :
    MAX_QUEUE_WAIT [] = 300 ∧
    (∀ (s : ProcState) (req : SpinRequest) (hw : HwRequestBehavior)
        (sim : Fin SHOTS → Fin 8) (u : ℚ) (n : ℕ),
      (spin { s with max_queue_wait := n } req hw sim u).1 = (spin s req hw sim u).1 ∧
      (spin { s with max_queue_wait := n } req hw sim u).2.using_real_quantum =
        (spin s req hw sim u).2.using_real_quantum) := by
  refine ⟨by decide, ?_⟩
  intro s req hw sim u n
  cases htried : hwTried s with
  | false =>
    have htried2 : hwTried { s with max_queue_wait := n } = false := htried
    rw [spin_of_not_tried s req hw sim u htried,
      spin_of_not_tried { s with max_queue_wait := n } req hw sim u htried2]
    exact ⟨rfl, rfl⟩
  | true =>
    have htried2 : hwTried { s with max_queue_wait := n } = true := htried
    cases hres : hwAttemptResult s hw with
    | none =>
      have hres2 : hwAttemptResult { s with max_queue_wait := n } hw = none := hres
      rw [spin_of_hw_fail s req hw sim u htried hres,
        spin_of_hw_fail { s with max_queue_wait := n } req hw sim u htried2 hres2]
      exact ⟨rfl, rfl⟩
    | some t =>
      rcases t with ⟨counts, name, pending⟩
      have hres2 : hwAttemptResult { s with max_queue_wait := n } hw =
          some (counts, name, pending) := hres
      rw [spin_of_hw_ok s req hw sim u counts name pending htried hres,
        spin_of_hw_ok { s with max_queue_wait := n } req hw sim u counts name pending
          htried2 hres2]
      by_cases hname : name = simulatorName
      · simp only [if_pos hname]
        generalize tallyShots (List.ofFn sim) = cts
        exact ⟨rfl, rfl⟩
      · simp only [if_neg hname]
        exact ⟨rfl, rfl⟩

/-! ## Case lemmas for the hardware attempt -/

theorem hwAttemptResult_status_error {s : ProcState} {hw : HwRequestBehavior} {msg : String}
    (hst : hw.status = Except.error msg) : hwAttemptResult s hw = none := by
  simp [hwAttemptResult, hst]

theorem hwAttemptResult_busy {s : ProcState} {hw : HwRequestBehavior} {p : ℕ}
    (hst : hw.status = Except.ok p) (hp : 10 ≤ p)
    (hfb : s.use_simulator_fallback = true) : hwAttemptResult s hw = none := by
  have hc : (decide (p < 10) || !s.use_simulator_fallback) = false := by
    rw [hfb]
    simp only [Bool.not_true, Bool.or_false, decide_eq_false_iff_not]
    omega
  simp [hwAttemptResult, hst, hc]

theorem hwAttemptResult_cond_true {s : ProcState} {p : ℕ}
    (hp : p < 10 ∨ s.use_simulator_fallback = false) :
    (decide (p < 10) || !s.use_simulator_fallback) = true := by
  rcases hp with hp | hp
  · simp [hp]
  · simp [hp]

theorem hwAttemptResult_run_error {s : ProcState} {hw : HwRequestBehavior} {p : ℕ} {msg : String}
    (hst : hw.status = Except.ok p)
    (hp : p < 10 ∨ s.use_simulator_fallback = false)
    (hrun : hw.runResult = Except.error msg) : hwAttemptResult s hw = none := by
  simp [hwAttemptResult, hst, hrun, hwAttemptResult_cond_true hp]

theorem hwAttemptResult_run_ok {s : ProcState} {hw : HwRequestBehavior} {p : ℕ} {qd : QuasiDist}
    (hst : hw.status = Except.ok p)
    (hp : p < 10 ∨ s.use_simulator_fallback = false)
    (hrun : hw.runResult = Except.ok qd) :
    hwAttemptResult s hw = some (quasiToCounts qd, s.quantum_backend.getD emptyStr, p) := by
  simp [hwAttemptResult, hst, hrun, hwAttemptResult_cond_true hp]

theorem hwAttemptResult_inv {s : ProcState} {hw : HwRequestBehavior}
    {t : Counts × String × ℕ} (h : hwAttemptResult s hw = some t) :
    ∃ qd p, hw.status = Except.ok p ∧ hw.runResult = Except.ok qd ∧
      t = (quasiToCounts qd, s.quantum_backend.getD emptyStr, p) := by
  cases hst : hw.status with
  | error e =>
    rw [hwAttemptResult_status_error hst] at h
    exact absurd h (by simp)
  | ok p =>
    by_cases hc : (decide (p < 10) || !s.use_simulator_fallback) = true
    · have hp : p < 10 ∨ s.use_simulator_fallback = false := by
        simpa only [Bool.or_eq_true, decide_eq_true_eq, Bool.not_eq_true',
          Bool.not_eq_eq_eq_not] using hc
      cases hrun : hw.runResult with
      | error e =>
        rw [hwAttemptResult_run_error hst hp hrun] at h
        exact absurd h (by simp)
      | ok qd =>
        rw [hwAttemptResult_run_ok hst hp hrun] at h
        refine ⟨qd, p, rfl, rfl, ?_⟩
        simpa using h.symm
    · have hnone : hwAttemptResult s hw = none := by
        simp only [hwAttemptResult, hst]
        exact if_neg hc
      rw [hnone] at h
      exact absurd h (by simp)

/-- Claim C1 counterexample: with hardware connected (`sConnected`),
fallback-on-busy enabled, and 15 pending jobs, the request does use the
simulator, but the process-wide `using_real_quantum` flag is NOT
preserved: the busy-queue branch raises, the generic handler catches it
and sets the flag false, so the claim's frame condition fails. -/
theorem C1_cex :
    sConnected.using_real_quantum = true ∧
    sConnected.use_simulator_fallback = true ∧
    hwBusy.status = Except.ok 15 ∧
    10 ≤ 15 ∧
    (spin sConnected req0 hwBusy sim0 0).1.backend_used = aerName ∧
    ¬ (spin sConnected req0 hwBusy sim0 0).2.using_real_quantum =
        sConnected.using_real_quantum :=
  ⟨rfl, rfl, rfl, by omega, rfl, by decide⟩

/-- Claim C1, amended: when hardware is connected, fallback-on-busy is
enabled and the pending-job count is 10 or more, the Simulator is
selected for the request, but the `using_real_quantum` flag is set false
rather than preserved: the busy branch raises an exception that is
handled by the same handler as a hardware failure, permanently
downgrading the process. -/
theorem C1_busy_downgrades (s : ProcState) (req : SpinRequest) (hw : HwRequestBehavior)
    (sim : Fin SHOTS → Fin 8) (u : ℚ) (p : ℕ)
    (htried : hwTried s = true)
    (hst : hw.status = Except.ok p) (hp : 10 ≤ p)
    (hfb : s.use_simulator_fallback = true) :
    (spin s req hw sim u).1.backend_used = aerName ∧
    (spin s req hw sim u).1.distribution = tallyShots (List.ofFn sim) ∧
    (spin s req hw sim u).2.using_real_quantum = false := by
  rw [spin_of_hw_fail s req hw sim u htried (hwAttemptResult_busy hst hp hfb)]
  generalize tallyShots (List.ofFn sim) = cts
  exact ⟨rfl, rfl, rfl⟩

/-- Witness for C1_busy_downgrades at the concrete busy-queue input. -/
theorem C1_busy_downgrades_witness :
    (hwTried sConnected = true ∧ hwBusy.status = Except.ok 15 ∧ 10 ≤ 15 ∧
      sConnected.use_simulator_fallback = true) ∧
    ((spin sConnected req0 hwBusy sim0 0).1.backend_used = aerName ∧
      (spin sConnected req0 hwBusy sim0 0).1.distribution = tallyShots (List.ofFn sim0) ∧
      (spin sConnected req0 hwBusy sim0 0).2.using_real_quantum = false) :=
  ⟨⟨rfl, rfl, by omega, rfl⟩,
    C1_busy_downgrades sConnected req0 hwBusy sim0 0 15 rfl rfl (by omega) rfl⟩

/-- Claim C2: a hardware execution failure during a request sets the
process-wide `using_real_quantum` flag false; from then on every request
in the same process takes the simulator path with `backend_used`
reporting the simulator, and no spin operation ever sets the flag back to
true. -/
theorem C2_permanent_downgrade (s : ProcState) (req : SpinRequest) (hw : HwRequestBehavior)
    (sim : Fin SHOTS → Fin 8) (u : ℚ) (p : ℕ) (msg : String)
    (htried : hwTried s = true) (hst : hw.status = Except.ok p)
    (hp : p < 10 ∨ s.use_simulator_fallback = false)
    (hrun : hw.runResult = Except.error msg) :
    (spin s req hw sim u).2.using_real_quantum = false ∧
    (spin s req hw sim u).1.backend_used = aerName ∧
    (∀ inputs : List SpinInput,
      (∀ resp ∈ (spinSeq (spin s req hw sim u).2 inputs).1,
        resp.backend_used = aerName) ∧
      (spinSeq (spin s req hw sim u).2 inputs).2.using_real_quantum = false) ∧
    (∀ (s2 : ProcState) (req2 : SpinRequest) (hw2 : HwRequestBehavior)
        (sim2 : Fin SHOTS → Fin 8) (u2 : ℚ),
      (spin s2 req2 hw2 sim2 u2).2.using_real_quantum = true →
        s2.using_real_quantum = true) := by
  rw [spin_of_hw_fail s req hw sim u htried (hwAttemptResult_run_error hst hp hrun),
    finishSpin_snd]
  refine ⟨rfl, rfl, ?_, fun s2 req2 hw2 sim2 u2 h => spin_flag_monotone s2 req2 hw2 sim2 u2 h⟩
  intro inputs
  exact spinSeq_flag_false inputs { s with using_real_quantum := false } rfl
    |>.imp id (fun h2 => by rw [h2])

/-- Witness for C2_permanent_downgrade at a concrete failing execution. -/
theorem C2_permanent_downgrade_witness :
    (hwTried sConnected = true ∧ hwFail0.status = Except.ok 3 ∧
      (3 < 10 ∨ sConnected.use_simulator_fallback = false) ∧
      hwFail0.runResult = Except.error errMsg0) ∧
    (spin sConnected req0 hwFail0 sim0 0).2.using_real_quantum = false :=
  ⟨⟨rfl, rfl, Or.inl (by omega), rfl⟩,
    (C2_permanent_downgrade sConnected req0 hwFail0 sim0 0 3 errMsg0 rfl rfl
      (Or.inl (by omega)) rfl).1⟩

/-- Claim C9: whenever the hardware attempt fails for any reason (status
query error, busy queue, transpile/submit/result error), the exception is
caught and the request still completes through the simulator path: the
response reports the simulator backend, carries the full 100-shot
distribution, and (for any valid random draw) contains exactly 3
measurement bits — no hardware error is surfaced to the caller. -/
theorem C9_no_error_surfaced (s : ProcState) (req : SpinRequest) (hw : HwRequestBehavior)
    (sim : Fin SHOTS → Fin 8) (u : ℚ)
    (hfail : hwAttemptResult s hw = none) (hu0 : 0 ≤ u) (hu1 : u < 1) :
    (spin s req hw sim u).1.backend_used = aerName ∧
    (spin s req hw sim u).1.distribution = tallyShots (List.ofFn sim) ∧
    totalCount ((spin s req hw sim u).1.distribution) = 100 ∧
    (spin s req hw sim u).1.measurements.length = 3 := by
  obtain ⟨hback, hdist, hmeas⟩ := spin_of_attempt_none s req hw sim u hfail
  refine ⟨hback, hdist, by rw [hdist]; exact totalCount_sim sim, ?_⟩
  have h100 : totalCount (tallyShots (List.ofFn sim)) = 100 := totalCount_sim sim
  have hr0 : 0 ≤ u * (totalCount (tallyShots (List.ofFn sim)) : ℚ) := by
    rw [h100]
    have : (0 : ℚ) ≤ 100 := by norm_num
    exact mul_nonneg hu0 (by exact_mod_cast this)
  have hrlt : u * (totalCount (tallyShots (List.ofFn sim)) : ℚ) <
      (totalCount (tallyShots (List.ofFn sim)) : ℚ) := by
    rw [h100]
    have h0 : (0 : ℚ) < 100 := by norm_num
    have : u * (100 : ℚ) < 1 * 100 := by
      have := mul_lt_mul_of_pos_right hu1 h0
      simpa using this
    simpa using this
  obtain ⟨a, hsel, w, hmem, hwpos⟩ := selectOutcome_pos hr0 hrlt
  rw [hmeas, hsel]
  obtain ⟨o, ho, _, _⟩ := tallyShots_mem hmem
  have ho2 : a = format03b o := ho
  simp only [Option.getD_some, ho2]
  exact format03b_length o

/-- Witness for C9_no_error_surfaced at a concrete failing execution. -/
theorem C9_no_error_surfaced_witness :
    (hwAttemptResult sConnected hwFail0 = none ∧ (0 : ℚ) ≤ 0 ∧ (0 : ℚ) < 1) ∧
    ((spin sConnected req0 hwFail0 sim0 0).1.backend_used = aerName ∧
      (spin sConnected req0 hwFail0 sim0 0).1.measurements.length = 3) :=
  ⟨⟨rfl, le_refl 0, by norm_num⟩,
    (C9_no_error_surfaced sConnected req0 hwFail0 sim0 0 rfl (le_refl 0) (by norm_num)).1,
    (C9_no_error_surfaced sConnected req0 hwFail0 sim0 0 rfl (le_refl 0) (by norm_num)).2.2.2⟩

/-- Claim C6: given a counts dictionary with distinct length-3 keys,
non-negative counts and positive total, the sampler returns exactly one
length-3 bit-string that occurs in the dictionary with positive count
(for every random draw), and selection is proportional to count: over the
`totalCount` equally likely integer draws, each key is selected exactly
its-count many times, so a key with count 0 is never selected. -/
theorem C6_sampler (ws : Counts)
    (hnd : (ws.map Prod.fst).Nodup)
    (hlen : ∀ q ∈ ws, q.1.length = 3)
    (hnn : ∀ q ∈ ws, 0 ≤ q.2)
    (hpos : 0 < totalCount ws) :
    (∀ u : ℚ, 0 ≤ u → u < 1 →
      ∃ a, selectOutcome ws (u * (totalCount ws : ℚ)) = some a ∧ a.length = 3 ∧
        ∃ w, (a, w) ∈ ws ∧ 0 < w) ∧
    (∀ a : Bitstring, drawCount ws a = (getCount ws a).toNat) := by
  constructor
  · intro u hu0 hu1
    have hq : (0 : ℚ) < (totalCount ws : ℚ) := by exact_mod_cast hpos
    have h0 : 0 ≤ u * (totalCount ws : ℚ) := mul_nonneg hu0 (le_of_lt hq)
    have hlt : u * (totalCount ws : ℚ) < (totalCount ws : ℚ) := by
      have := mul_lt_mul_of_pos_right hu1 hq
      simpa using this
    obtain ⟨a, hsel, w, hmem, hw⟩ := selectOutcome_pos h0 hlt
    exact ⟨a, hsel, hlen (a, w) hmem, w, hmem, hw⟩
  · intro a
    exact drawCount_eq hnd hnn a

/-- Witness for C6_sampler on a concrete two-outcome distribution. -/
theorem C6_sampler_witness :
    ((ws6.map Prod.fst).Nodup ∧ (∀ q ∈ ws6, q.1.length = 3) ∧
      (∀ q ∈ ws6, 0 ≤ q.2) ∧ 0 < totalCount ws6) ∧
    (∃ a, selectOutcome ws6 ((1 / 2 : ℚ) * (totalCount ws6 : ℚ)) = some a ∧ a.length = 3 ∧
      ∃ w, (a, w) ∈ ws6 ∧ 0 < w) ∧
    drawCount ws6 [0, 1, 0] = (getCount ws6 [0, 1, 0]).toNat :=
  ⟨⟨by decide, by decide, by decide, by decide⟩,
    (C6_sampler ws6 (by decide) (by decide) (by decide) (by decide)).1 (1 / 2)
      (by norm_num) (by norm_num),
    (C6_sampler ws6 (by decide) (by decide) (by decide) (by decide)).2 [0, 1, 0]⟩

/-- Claim C4 counterexample: on the hardware path with quasi-distribution
`qd0` (three probabilities of 1/3 each), the response's distribution has
counts 33, 33, 33 summing to 99, not the shot count 100 — so the claim
that counts sum to 100 on either path is false. -/
theorem C4_cex :
    (spin sConnected req0 hwOk99 sim0 0).1.backend_used = backendName0 ∧
    (spin sConnected req0 hwOk99 sim0 0).1.distribution = quasiToCounts qd0 ∧
    totalCount ((spin sConnected req0 hwOk99 sim0 0).1.distribution) = 99 ∧
    ¬ (99 : ℤ) = 100 := by
  refine ⟨rfl, rfl, ?_, by decide⟩
  have h : (spin sConnected req0 hwOk99 sim0 0).1.distribution = quasiToCounts qd0 := rfl
  rw [h]
  norm_num [quasiToCounts, qd0, pyIntTrunc, totalCount, SHOTS, format03b]

/-- Claim C4, amended: every distribution produced by the Executor maps
only length-3 bit-strings drawn from the 8 possible outcomes to integer
counts; on the simulator path the counts are positive and sum to exactly
100, while on the hardware path (for a quasi-distribution with
non-negative probabilities summing to at most 1) the truncated counts are
non-negative and sum to at most 100 — possibly strictly less. -/
theorem C4_distribution_invariants (qd : QuasiDist)
    (hnn : ∀ q ∈ qd, 0 ≤ q.2)
    (hsum : (qd.map Prod.snd).sum ≤ 1)
    (hnd : (qd.map Prod.fst).Nodup) :
    (∀ sim : Fin SHOTS → Fin 8,
      totalCount (tallyShots (List.ofFn sim)) = 100 ∧
      ((tallyShots (List.ofFn sim)).map Prod.fst).Nodup ∧
      ∀ q ∈ tallyShots (List.ofFn sim),
        q.1.length = 3 ∧ (∃ o : Fin 8, q.1 = format03b o) ∧ 0 < q.2) ∧
    (totalCount (quasiToCounts qd) ≤ 100 ∧
      ((quasiToCounts qd).map Prod.fst).Nodup ∧
      ∀ q ∈ quasiToCounts qd,
        q.1.length = 3 ∧ (∃ o : Fin 8, q.1 = format03b o) ∧ 0 ≤ q.2) ∧
    (∀ (s : ProcState) (req : SpinRequest) (hw : HwRequestBehavior)
        (sim : Fin SHOTS → Fin 8) (u : ℚ),
      (spin s req hw sim u).1.distribution = tallyShots (List.ofFn sim) ∨
      ∃ qd2, hw.runResult = Except.ok qd2 ∧
        (spin s req hw sim u).1.distribution = quasiToCounts qd2) := by
  refine ⟨?_, ⟨totalCount_quasi_le hnn hsum, quasiToCounts_keys_nodup hnd, ?_⟩, ?_⟩
  · intro sim
    refine ⟨totalCount_sim sim, tallyShots_nodup _, ?_⟩
    intro q hq
    obtain ⟨o, ho, hc, homem⟩ := tallyShots_mem hq
    exact ⟨by rw [ho]; exact format03b_length o, ⟨o, ho⟩, tallyShots_pos hq⟩
  · intro q hq
    rcases List.mem_map.1 hq with ⟨op, hop, hqo⟩
    refine ⟨?_, ⟨op.1, ?_⟩, quasiToCounts_nonneg hnn q hq⟩
    · rw [← hqo]
      exact format03b_length op.1
    · rw [← hqo]
  · intro s req hw sim u
    cases htried : hwTried s with
    | false =>
      left
      rw [spin_of_not_tried s req hw sim u htried]
      generalize tallyShots (List.ofFn sim) = cts
      rfl
    | true =>
      cases hres : hwAttemptResult s hw with
      | none =>
        left
        rw [spin_of_hw_fail s req hw sim u htried hres]
        generalize tallyShots (List.ofFn sim) = cts
        rfl
      | some t =>
        obtain ⟨qd2, p2, hst2, hrun2, ht⟩ := hwAttemptResult_inv hres
        subst ht
        rw [spin_of_hw_ok s req hw sim u _ _ _ htried hres]
        by_cases hname : s.quantum_backend.getD emptyStr = simulatorName
        · left
          rw [if_pos hname]
          generalize tallyShots (List.ofFn sim) = cts
          rfl
        · right
          refine ⟨qd2, hrun2, ?_⟩
          rw [if_neg hname]
          rfl

/-- Witness for C4_distribution_invariants at the concrete `qd0`. -/
theorem C4_distribution_invariants_witness :
    ((∀ q ∈ qd0, 0 ≤ q.2) ∧ (qd0.map Prod.snd).sum ≤ 1 ∧ (qd0.map Prod.fst).Nodup) ∧
    totalCount (quasiToCounts qd0) ≤ 100 :=
  ⟨⟨by norm_num [qd0], by norm_num [qd0], by decide⟩,
    (C4_distribution_invariants qd0 (by norm_num [qd0]) (by norm_num [qd0])
      (by decide)).2.1.1⟩

/-- Claim C5: on a successful hardware execution the response distribution
is exactly `int(probability * 100)` (truncation toward zero) per returned
outcome; concretely, for `qd0` the counts sum to 99 < 100, and the
sampler still accepts this under-full distribution, returning an outcome. -/
theorem C5_hw_truncation (s : ProcState) (req : SpinRequest) (hw : HwRequestBehavior)
    (sim : Fin SHOTS → Fin 8) (u : ℚ) (qd : QuasiDist) (p : ℕ)
    (htried : hwTried s = true) (hst : hw.status = Except.ok p)
    (hp : p < 10 ∨ s.use_simulator_fallback = false)
    (hrun : hw.runResult = Except.ok qd)
    (hname : ¬ s.quantum_backend.getD emptyStr = simulatorName) :
    (spin s req hw sim u).1.distribution =
      qd.map (fun op => (format03b op.1, pyIntTrunc (op.2 * (SHOTS : ℚ)))) ∧
    totalCount (quasiToCounts qd0) = 99 ∧
    totalCount (quasiToCounts qd0) < 100 ∧
    selectOutcome (quasiToCounts qd0)
      ((1 / 10 : ℚ) * (totalCount (quasiToCounts qd0) : ℚ)) = some (format03b 0) := by
  have h99 : totalCount (quasiToCounts qd0) = 99 := by
    norm_num [quasiToCounts, qd0, pyIntTrunc, totalCount, SHOTS, format03b]
  refine ⟨?_, h99, by rw [h99]; norm_num, ?_⟩
  case refine_2 =>
    rw [h99]
    norm_num [selectOutcome, quasiToCounts, qd0, pyIntTrunc, SHOTS, format03b]
  rw [spin_of_hw_ok s req hw sim u _ _ _ htried (hwAttemptResult_run_ok hst hp hrun),
    if_neg hname]
  rfl

/-- Witness for C5_hw_truncation at the concrete short-queue success. -/
theorem C5_hw_truncation_witness :
    (hwTried sConnected = true ∧ hwOk99.status = Except.ok 3 ∧
      (3 < 10 ∨ sConnected.use_simulator_fallback = false) ∧
      hwOk99.runResult = Except.ok qd0 ∧
      ¬ sConnected.quantum_backend.getD emptyStr = simulatorName) ∧
    (spin sConnected req0 hwOk99 sim0 0).1.distribution =
      qd0.map (fun op => (format03b op.1, pyIntTrunc (op.2 * (SHOTS : ℚ)))) :=
  ⟨⟨rfl, rfl, Or.inl (by omega), rfl, by decide⟩,
    (C5_hw_truncation sConnected req0 hwOk99 sim0 0 qd0 3 rfl rfl (Or.inl (by omega)) rfl
      (by decide)).1⟩

end QuantumSlot
